import Mathlib

/-!
# Verification of the simulator-export core of `case-gen-entropy`

Shallow embedding of `backend/utils/simulator_export.py` (name normalizer,
bucket resolver, feature classifier, matching engine, matrix builder, CSV
serializer, matrix validator, priors extractor) and of the priors export
endpoint of `backend/app/main.py`, together with proofs about the claims of
the natural-language specification.

Modelling conventions:
* Python `float` values are modelled as `Rat` (exact rationals); `round(x, 2)`
  is modelled as exact round-half-to-even on rationals.
* Python `str` is modelled as Lean `String`; `str.lower()` and the regular
  expression character classes are modelled over their ASCII ranges.
* Python dictionaries (which preserve insertion order and keep the original
  key position on value overwrite) are modelled as association lists with an
  order-preserving insert.
* A `raise` (for example, the `IndexError` of `df.columns[0]` on a columnless
  DataFrame) is modelled by returning `none`.
-/

attribute [local semireducible] Rat.add Rat.mul Rat.sub Rat.inv Rat.ofScientific

/-! ## Basic Python-style string primitives -/

/-- The ASCII whitespace characters matched by Python's `str.strip`, `str.split`
and the regex class `\s` (the Unicode-only whitespace code points are outside
the ASCII model). -/
def isPySpace (c : Char) : Bool :=
  c = ' ' ∨ c = '\t' ∨ c = '\n' ∨ c = '\r' ∨ c = '\x0b' ∨ c = '\x0c'

/-- ASCII decimal digit, the regex class `\d` restricted to ASCII. -/
def isPyDigit (c : Char) : Bool :=
  '0' ≤ c ∧ c ≤ '9'

/-- ASCII uppercase letter test, stated on code points. -/
def isUpperAscii (c : Char) : Bool :=
  65 ≤ c.toNat ∧ c.toNat ≤ 90

/-- `str.lower` on a single character, restricted to ASCII (the only case
conversion exercised by the repository's labels). -/
def pyLowerChar (c : Char) : Char :=
  if 65 ≤ c.toNat ∧ c.toNat ≤ 90 then Char.ofNat (c.toNat + 32) else c

/-- `str.lower` over a character list. -/
def pyLowerList (l : List Char) : List Char :=
  l.map pyLowerChar

/-- `str.strip()`: drop whitespace from both ends. -/
def pyStripList (l : List Char) : List Char :=
  ((l.dropWhile isPySpace).reverse.dropWhile isPySpace).reverse

/-- `re.sub(r"^tier\s*\d+\s*:\s*", "", s)`: remove one leading
`tier <digits>:` tag (with optional surrounding whitespace) if present. -/
def dropTierTag (l : List Char) : List Char :=
  match l with
  | 't' :: 'i' :: 'e' :: 'r' :: rest =>
    if (((rest.dropWhile isPySpace).takeWhile isPyDigit)).isEmpty then l
    else
      match ((rest.dropWhile isPySpace).dropWhile isPyDigit).dropWhile isPySpace with
      | ':' :: r3 => r3.dropWhile isPySpace
      | _ => l
  | _ => l

/-- `re.sub(r"\s+", " ", s)`: collapse every maximal whitespace run to a
single space. -/
def collapseWS : List Char → List Char
  | [] => []
  | [c] => if isPySpace c then [' '] else [c]
  | c1 :: c2 :: rest =>
    if isPySpace c1 then
      if isPySpace c2 then collapseWS (c2 :: rest)
      else ' ' :: collapseWS (c2 :: rest)
    else c1 :: collapseWS (c2 :: rest)

/-- `str.replace(pat, "")` (all non-overlapping occurrences, left to right),
with explicit fuel; `removeAll` below instantiates the fuel with the string
length, which is always sufficient. -/
def removeAllFuel (pat : List Char) : Nat → List Char → List Char
  | _, [] => []
  | 0, l => l
  | fuel + 1, c :: rest =>
    if pat ≠ [] ∧ pat.isPrefixOf (c :: rest) then
      removeAllFuel pat fuel (List.drop (pat.length - 1) rest)
    else
      c :: removeAllFuel pat fuel rest

/-- `s.replace(pat, "")` on character lists. -/
def removeAll (pat l : List Char) : List Char :=
  removeAllFuel pat l.length l

/-- Does `pat` occur as a contiguous substring of `l`? -/
def occursIn (pat : List Char) : List Char → Bool
  | [] => pat.isEmpty
  | c :: rest => pat.isPrefixOf (c :: rest) || occursIn pat rest

/-- `str.strip()` on strings. -/
def pyStrip (s : String) : String :=
  ⟨pyStripList s.data⟩

/-- `str.lower()` on strings (ASCII model). -/
def pyLower (s : String) : String :=
  ⟨pyLowerList s.data⟩

/-- `s.replace(pat, "")` on strings. -/
def pyRemoveAll (s pat : String) : String :=
  ⟨removeAll pat.data s.data⟩

/-- Python string `<` (lexicographic on code points), stated via the
lexicographic order on the code-point lists. -/
def strLtb (s1 s2 : String) : Bool :=
  decide (s1.data < s2.data)

/-- Python string `<=` (the total order used when sorting rows). -/
def strLeb (s1 s2 : String) : Bool :=
  decide (s1.data ≤ s2.data)

/-- `str.split()` (split on whitespace runs, no empty items): auxiliary with
an accumulator for the word currently being read (reversed). -/
def splitWSAux (cur : List Char) : List Char → List (List Char)
  | [] => if cur.isEmpty then [] else [cur.reverse]
  | c :: rest =>
    if isPySpace c then
      if cur.isEmpty then splitWSAux [] rest
      else cur.reverse :: splitWSAux [] rest
    else splitWSAux (c :: cur) rest

/-- `str.split()` on a character list. -/
def splitWS (l : List Char) : List (List Char) :=
  splitWSAux [] l

/-- First-occurrence de-duplication, modelling iteration over a Python set
built from a list (only sizes of intersections/unions are used, which do not
depend on the iteration order). -/
def dedup : List (List Char) → List (List Char)
  | [] => []
  | x :: rest => if x ∈ rest then dedup rest else x :: dedup rest

/-! ## The name normalizer `_norm` (simulator_export.py lines 46-58) -/

/-- `_norm`: `(s or "").strip().lower()`, then drop a leading
`tier <digits>:` tag, then collapse whitespace runs. -/
def pyNorm (s : String) : String :=
  ⟨collapseWS (dropTierTag (pyLowerList (pyStripList s.data)))⟩

/-- `_norm` on an optional string: `(s or "")` maps a missing value to the
empty string. -/
def pyNormOpt (s : Option String) : String :=
  pyNorm (s.getD "")

/-! ## Data model -/

/-- One entry of `case_details['history_questions']`. -/
structure HistoryQuestion where
  question : String
  expected_answer : String
deriving DecidableEq, Repr

/-- One entry of `case_details['physical_exam_findings']`. -/
structure PhysicalExamFinding where
  examination : String
  findings : String
deriving DecidableEq, Repr

/-- One entry of `case_details['diagnostic_workup']`. -/
structure DiagnosticWorkupItem where
  workup : String
  rationale : String
deriving DecidableEq, Repr

/-- The `case_details` dictionary, with the fields the export module reads. -/
structure CaseDetails where
  presentation : String
  patient_personality : String
  history_questions : List HistoryQuestion
  physical_exam_findings : List PhysicalExamFinding
  diagnostic_workup : List DiagnosticWorkupItem
deriving DecidableEq, Repr

/-- One tier dictionary of the diagnostic framework.  A bucket entry is
`none` when it is not a dictionary with a `name` key (`b.get('name')`
yields `None` there). -/
structure Tier where
  tier_level : Int
  buckets : List (Option String)
  a_priori_probabilities : List (String × Rat)
deriving DecidableEq, Repr

/-- One `feature_likelihood_ratios` record; `tier_level = none` models a
record that does not carry a `tier_level` key at all. -/
structure LRRecord where
  feature_name : String
  feature_category : String
  diagnostic_bucket : String
  tier_level : Option Int
  likelihood_ratio : Rat
deriving DecidableEq, Repr

/-- The built matrix: pandas DataFrame with a leading `Feature` column and
one numeric column per diagnostic bucket; a row is the feature label plus
the numeric cells in column order. -/
structure Table where
  header : List String
  rows : List (String × List Rat)
deriving DecidableEq, Repr

/-! ## Ordered dictionaries as association lists -/

/-- Python-dict insert: overwrite in place if the key exists (keeping its
position), else append at the end. -/
def dictInsert (m : List (String × α)) (k : String) (v : α) : List (String × α) :=
  match m with
  | [] => [(k, v)]
  | (k', v') :: rest =>
    if k' = k then (k', v) :: rest else (k', v') :: dictInsert rest k v

/-- Python-dict lookup. -/
def dictFind (m : List (String × α)) (k : String) : Option α :=
  match m with
  | [] => none
  | (k', v) :: rest => if k' = k then some v else dictFind rest k

/-! ## difflib model

`_closest` (simulator_export.py lines 70-91) first calls
`difflib.get_close_matches(target, candidates, n=1, cutoff)` and falls back
to a token-overlap (Jaccard) score.  The `SequenceMatcher` ratio is modelled
exactly as `2 * M / (len(a) + len(b))` where `M` is the total size of the
greedy recursive longest-matching-block decomposition (the `autojunk`
heuristic, which only triggers on strings of 200+ characters, is not
modelled, and the float arithmetic of the cutoff comparison is modelled as
exact rational arithmetic).  No claim depends on the value computed here:
the strict mode of the matching engine never reaches this code. -/

/-- Length of the common prefix of two character lists. -/
def commonPrefixLen : List Char → List Char → Nat
  | a :: as, b :: bs => if a = b then commonPrefixLen as bs + 1 else 0
  | _, _ => 0

/-- Length of the matching block of `a[i:]` vs `b[j:]` truncated to the
window `[alo, ahi) × [blo, bhi)`. -/
def blockLenAt (a b : List Char) (ahi bhi i j : Nat) : Nat :=
  commonPrefixLen ((a.take ahi).drop i) ((b.take bhi).drop j)

/-- `SequenceMatcher.find_longest_match` on the window
`[alo, ahi) × [blo, bhi)` (no junk): the longest matching block, and among
blocks of maximal size the one with smallest `i`, then smallest `j`.
Returns `(i, j, size)`. -/
def findLongestMatch (a b : List Char) (alo ahi blo bhi : Nat) : Nat × Nat × Nat :=
  (List.range' alo (ahi - alo)).foldl
    (fun best i =>
      (List.range' blo (bhi - blo)).foldl
        (fun best j =>
          let k := blockLenAt a b ahi bhi i j
          if best.2.2 < k then (i, j, k) else best)
        best)
    (alo, blo, 0)

/-- Total matched size `M` of `SequenceMatcher.get_matching_blocks`:
recursively take the longest match and recurse on both sides.  The fuel is
instantiated with a bound that dominates the recursion depth. -/
def matchingTotalFuel (a b : List Char) : Nat → Nat → Nat → Nat → Nat → Nat
  | 0, _, _, _, _ => 0
  | fuel + 1, alo, ahi, blo, bhi =>
    let (i, j, k) := findLongestMatch a b alo ahi blo bhi
    if k = 0 then 0
    else
      matchingTotalFuel a b fuel alo i blo j + k +
        matchingTotalFuel a b fuel (i + k) ahi (j + k) bhi

/-- `SequenceMatcher(None, a, b).ratio()`. -/
def sequenceRatio (a b : List Char) : Rat :=
  if a.length + b.length = 0 then 1
  else
    mkRat (2 * matchingTotalFuel a b (a.length + b.length + 1) 0 a.length 0 b.length)
      (a.length + b.length)

/-- `difflib.get_close_matches(word, possibilities, n=1, cutoff)`: keep the
candidates whose ratio reaches the cutoff and return the best one, breaking
ratio ties towards the lexicographically larger string (the behaviour of
`heapq.nlargest` on `(score, string)` pairs). -/
def getCloseMatch1 (word : String) (cands : List String) (cutoff : Rat) : Option String :=
  let scored := cands.filterMap fun x =>
    let r := sequenceRatio x.data word.data
    if cutoff ≤ r then some (x, r) else none
  (scored.foldl
    (fun best xr =>
      match best with
      | none => some xr
      | some (bx, br) =>
        if br < xr.2 ∨ (br = xr.2 ∧ strLtb bx xr.1) then some xr else best)
    none).map Prod.fst

/-- The token set `set(s.split())` of a string. -/
def tokenSet (s : String) : List (List Char) :=
  dedup (splitWS s.data)

/-- `len(tset & cset)` for de-duplicated token lists. -/
def interCard (a b : List (List Char)) : Nat :=
  (a.filter (· ∈ b)).length

/-- `len(tset | cset)` for de-duplicated token lists. -/
def unionCard (a b : List (List Char)) : Nat :=
  (dedup (a ++ b)).length

/-- `_closest(target, candidates, cutoff)` (simulator_export.py lines
70-91): difflib first, then best Jaccard token overlap (strict improvement,
so the first candidate wins ties), `none` when nothing reaches the cutoff. -/
def closestMatch (target : String) (candidates : List String) (cutoff : Rat) : Option String :=
  if candidates.isEmpty then none
  else
    match getCloseMatch1 target candidates cutoff with
    | some best => some best
    | none =>
      let tset := tokenSet target
      let best := candidates.foldl
        (fun (acc : Option String × Rat) c =>
          let cset := tokenSet c
          if tset.isEmpty ∨ cset.isEmpty then acc
          else
            let score := mkRat (interCard tset cset) (unionCard tset cset)
            if acc.2 < score then (some c, score) else acc)
        (none, 0)
      if cutoff ≤ best.2 then best.1 else none

/-! ## Feature classifier (simulator_export.py lines 110-118) -/

/-- The standardized row label of an LR record: category-dependent prelude,
`str.lower()`, `str.replace(..., '')` chains and a final `str.strip()`
exactly as in the source (the default branch only strips). -/
def standardizeFeature (category name : String) : String :=
  if category = "history" then
    "Patient Has: " ++ pyStrip (pyRemoveAll (pyRemoveAll (pyLower name) "history:") "question:")
  else if category = "physical_exam" then
    "Physical Finding: " ++
      pyStrip (pyRemoveAll (pyRemoveAll (pyRemoveAll (pyLower name) "physical exam:") "examination:") "physical:")
  else if category = "diagnostic_workup" then
    "Test Result: " ++
      pyStrip (pyRemoveAll (pyRemoveAll (pyRemoveAll (pyLower name) "diagnostic test:") "test:") "diagnostic:")
  else
    "Clinical Feature: " ++ pyStrip name

/-! ## Bucket resolver (simulator_export.py lines 25-68) -/

/-- `[b.get('name') for b in tier.get('buckets', []) if b.get('name')]`:
the usable display names of a tier, skipping missing and empty (falsy)
names. -/
def tierBucketNames (t : Tier) : List String :=
  t.buckets.filterMap fun b =>
    match b with
    | some n => if n = "" then none else some n
    | none => none

/-- First-seen-order de-duplicated union of all bucket names across the
framework (the `seen` set loop of lines 36-43). -/
def unionBucketNames (fw : List Tier) : List String :=
  fw.foldl (fun acc t =>
    (tierBucketNames t).foldl (fun acc n => if n ∈ acc then acc else acc ++ [n]) acc) []

/-- `diagnostic_buckets_display` (lines 26-43): the selected tier's bucket
names when a tier is requested (falling back to the first tier when the
requested level is absent), and the cross-tier union when no tier is
requested or the selection yields no names. -/
def resolveBuckets (fw : List Tier) (tl : Option Int) : List String :=
  let fromTier : List String :=
    match tl with
    | some lvl =>
      match fw.find? (fun t => t.tier_level = lvl) with
      | some t => tierBucketNames t
      | none =>
        match fw with
        | t :: _ => tierBucketNames t
        | [] => []
    | none => []
  if fromTier.isEmpty then unionBucketNames fw else fromTier

/-- `bucket_norm_to_display` (line 60): normalized name to display name, in
dict insertion order. -/
def bucketNormMap (names : List String) : List (String × String) :=
  names.foldl (fun m n => dictInsert m (pyNorm n) n) []

/-- `union_bucket_norm_to_display` (lines 63-68). -/
def unionNormMap (fw : List Tier) : List (String × String) :=
  fw.foldl (fun m t =>
    (tierBucketNames t).foldl (fun m n => dictInsert m (pyNorm n) n) m) []

/-! ## Matching engine (simulator_export.py lines 128-183) -/

/-- Resolution of one LR record's `diagnostic_bucket` label to a display
bucket name: exact normalized lookup first; in non-strict mode fuzzy
matching within the tier, then cross-tier matching with projection back to
the tier (`if ck:`-style truthiness tests of Python are modelled as
emptiness tests on the returned keys). -/
def resolveBucket (strict : Bool) (bm um : List (String × String)) (db : String) : Option String :=
  let nb := pyNorm db
  match dictFind bm nb with
  | some d => some d
  | none =>
    if strict then none
    else
      let withinTier : Option String :=
        if bm.isEmpty then none
        else
          match closestMatch nb (bm.map Prod.fst) (mkRat 1 2) with
          | some ck => if ck = "" then none else dictFind bm ck
          | none => none
      match withinTier with
      | some d => some d
      | none =>
        if um.isEmpty then none
        else
          match closestMatch nb (um.map Prod.fst) (mkRat 1 2) with
          | none => none
          | some uk =>
            if uk = "" then none
            else
              match dictFind um uk with
              | none => none
              | some ud =>
                match dictFind bm (pyNorm ud) with
                | some d => some d
                | none =>
                  match closestMatch (pyNorm ud) (bm.map Prod.fst) (mkRat 2 5) with
                  | some pk => if pk = "" then none else dictFind bm pk
                  | none => none

/-! ## Matrix builder (simulator_export.py lines 93-208) -/

/-- Python `round(x, 2)` modelled as exact round-half-to-even at two decimal
places on rationals (the binary-float representation effects of `round` on
`float` are outside the rational model). -/
def roundHalfEven (q : Rat) : Int :=
  let f := q.floor
  let r := q - (f : Rat)
  if r < mkRat 1 2 then f
  else if mkRat 1 2 < r then f + 1
  else if f % 2 = 0 then f else f + 1

/-- `round(float(x), 2)`. -/
def round2 (q : Rat) : Rat :=
  mkRat (roundHalfEven (q * 100)) 100

/-- The tier filter on LR records (lines 97-102): filter by the requested
tier level only when a tier is requested and at least one record carries a
`tier_level` key; records without the key never equal the requested level
and are dropped by the filter. -/
def filterLRRecords (tl : Option Int) (lrs : List LRRecord) : List LRRecord :=
  match tl with
  | some lvl =>
    if lrs.any (fun r => r.tier_level.isSome) then
      lrs.filter (fun r => r.tier_level = some lvl)
    else lrs
  | none => lrs

/-- `feature_lr_map`: insertion-ordered dict from standardized feature label
to an inner dict from bucket display name to LR value. -/
abbrev FeatureLRMap := List (String × List (String × Rat))

/-- `feature_lr_map[f] = {b: 1.0 for b in diagnostic_buckets_display}`
(lines 122-125), built by the same per-bucket insertion loop. -/
def initRow (buckets : List String) : List (String × Rat) :=
  buckets.foldl (fun inner b => dictInsert inner b 1) []

/-- `feature_lr_map[f][d] = v` for an `f` already present. -/
def setCell (m : FeatureLRMap) (f d : String) (v : Rat) : FeatureLRMap :=
  match m with
  | [] => []
  | (f', inner) :: rest =>
    if f' = f then (f', dictInsert inner d v) :: rest
    else (f', inner) :: setCell rest f d v

/-- The body of the `for lr in flrs_iter` loop (lines 105-185): initialize
the feature row on first occurrence, resolve the bucket, and write the
rounded LR value when a (truthy) display bucket was resolved. -/
def processRecord (strict : Bool) (buckets : List String)
    (bm um : List (String × String)) (m : FeatureLRMap) (r : LRRecord) : FeatureLRMap :=
  let f := standardizeFeature r.feature_category r.feature_name
  let m1 := if (dictFind m f).isSome then m else m ++ [(f, initRow buckets)]
  match resolveBucket strict bm um r.diagnostic_bucket with
  | some d => if d = "" then m1 else setCell m1 f d (round2 r.likelihood_ratio)
  | none => m1

/-- Insertion into a list sorted by `le`. -/
def insertSorted (le : α → α → Bool) (x : α) : List α → List α
  | [] => [x]
  | y :: ys => if le x y then x :: y :: ys else y :: insertSorted le x ys

/-- Sorting by `le`.  `df.sort_values('Feature')` sorts the rows by the
Python string order on the unique feature labels, so any comparison sort
computes the same list; insertion sort keeps the model kernel-computable. -/
def sortByLe (le : α → α → Bool) (l : List α) : List α :=
  l.foldr (insertSorted le) []

/-- Row comparison used by `df.sort_values('Feature')`. -/
def rowLeb (a b : String × List Rat) : Bool :=
  strLeb a.1 b.1

/-- `create_feature_lr_matrix` (lines 9-208).  `case_details` is accepted
and, exactly as in the source, never used.  The final per-column clamp
`df[col] = df[col].apply(lambda x: max(x, 0.01))` over all bucket columns is
expressed as the same clamp over every numeric cell of every row. -/
def create_feature_lr_matrix (case_details : CaseDetails) (fw : List Tier)
    (lrs : List LRRecord) (tl : Option Int) (strict : Bool) : Table :=
  let buckets := resolveBuckets fw tl
  let bm := bucketNormMap buckets
  let um := unionNormMap fw
  let flrs := filterLRRecords tl lrs
  let m := flrs.foldl (processRecord strict buckets bm um) []
  let rows := m.map fun fi => (fi.1, buckets.map fun b => (dictFind fi.2 b).getD 1)
  let clamped := rows.map fun fv => (fv.1, fv.2.map fun v => max v (mkRat 1 100))
  { header := "Feature" :: buckets, rows := sortByLe rowLeb clamped }

/-! ## Serializers (simulator_export.py lines 233-235) -/

/-- Decimal rendering of a cell value, mimicking the shortest-round-trip
`repr` of Python floats for the two-decimal values the builder produces
(`1.0`, `2.5`, `0.07`, ...); values whose magnitude needs scientific
notation in Python are outside this model. -/
def ratToFloatStr (q : Rat) : String :=
  let sign := if q < 0 then "-" else ""
  let aq : Rat := |q|
  let ip : Nat := aq.floor.toNat
  let hundredths : Nat := ((aq - (aq.floor : Rat)) * 100).floor.toNat
  if hundredths = 0 then sign ++ toString ip ++ ".0"
  else if hundredths % 10 = 0 then sign ++ toString ip ++ "." ++ toString (hundredths / 10)
  else if hundredths < 10 then sign ++ toString ip ++ ".0" ++ toString hundredths
  else sign ++ toString ip ++ "." ++ toString hundredths

/-- Minimal CSV quoting as applied by `DataFrame.to_csv` (QUOTE_MINIMAL). -/
def csvField (s : String) : String :=
  if s.data.any (fun c => c = ',' ∨ c = '"' ∨ c = '\n' ∨ c = '\r') then
    "\"" ++ ⟨s.data.foldr (fun c acc => if c = '"' then '"' :: '"' :: acc else c :: acc) []⟩ ++ "\""
  else s

/-- `export_to_csv` / `df.to_csv(index=False)`: header line then one line
per row, `\n`-terminated. -/
def export_to_csv (t : Table) : String :=
  String.intercalate "," (t.header.map csvField) ++ "\n" ++
    String.join (t.rows.map fun r =>
      String.intercalate "," (csvField r.1 :: r.2.map ratToFloatStr) ++ "\n")

/-! ## Matrix validator (simulator_export.py lines 292-325) -/

/-- A pandas column as seen by the validator: its name, and either object
(string) content or numeric content (`none` cells are `NaN`; the validator
is the only consumer that must distinguish them). -/
inductive PyColumn where
  | strCol (name : String) (vals : List (Option String))
  | numCol (name : String) (vals : List (Option Rat))
deriving DecidableEq, Repr

/-- Column name accessor. -/
def PyColumn.colName : PyColumn → String
  | .strCol n _ => n
  | .numCol n _ => n

/-- Does the column contain a missing value? -/
def PyColumn.hasNull : PyColumn → Bool
  | .strCol _ vs => vs.any Option.isNone
  | .numCol _ vs => vs.any Option.isNone

/-- An arbitrary DataFrame as passed to the validator. -/
structure PyDataFrame where
  cols : List PyColumn
deriving DecidableEq, Repr

/-- The numeric columns (`df.select_dtypes(include=[np.number])`). -/
def PyDataFrame.numericCols (df : PyDataFrame) : List (String × List (Option Rat)) :=
  df.cols.filterMap fun c =>
    match c with
    | .numCol n vs => some (n, vs)
    | .strCol _ _ => none

/-- The validator's structured result. -/
structure ValidationResult where
  valid : Bool
  errors : List String
  warnings : List String
deriving DecidableEq, Repr

/-- The non-positivity test applied per numeric column (`(df[col] <= 0).any()`;
a pandas comparison with `NaN` is false). -/
def colHasNonPositive (nv : String × List (Option Rat)) : Bool :=
  nv.2.any (fun v => match v with | some x => x ≤ 0 | none => false)

/-- Does some numeric column's label occur more than once among the
DataFrame's column labels?  Pandas permits duplicate labels; for such a
label `df[col]` selects a DataFrame instead of a Series, so the positivity
loop's `if (df[col] <= 0).any():` tests the truth value of a multi-element
object and raises `ValueError` at the first such numeric label. -/
def hasDupNumericLabel (df : PyDataFrame) : Bool :=
  df.numericCols.any fun nv => 2 ≤ df.cols.countP (fun c => c.colName = nv.1)

/-- `validate_lr_matrix_for_simulator`.  Two raise paths are modelled by
`none`: `df.columns[0]` raises `IndexError` on a columnless DataFrame, and
the positivity loop raises `ValueError` when a numeric column's label is
duplicated among the columns (see `hasDupNumericLabel`; the raise happens
mid-loop, before any result is returned, so the whole call throws).
Otherwise the structured result is returned with `valid = (errors = [])`
since every appended error also sets `valid` to false.  Comparisons with
`NaN` are false in pandas, and `max`/`min` skip `NaN`, so the range checks
quantify over the present values. -/
def validate_lr_matrix_for_simulator (df : PyDataFrame) : Option ValidationResult :=
  match df.cols with
  | [] => none
  | c0 :: _ =>
    if hasDupNumericLabel df then none
    else
    let headerErrors := if c0.colName ≠ "Feature" then ["First column must be named 'Feature'"] else []
    let positivityErrors := df.numericCols.filterMap fun nv =>
      if colHasNonPositive nv then
        some ("Column '" ++ nv.1 ++ "' contains non-positive values")
      else none
    let nullWarnings := if df.cols.any PyColumn.hasNull then ["Matrix contains missing values"] else []
    let rangeWarnings := df.numericCols.flatMap fun nv =>
      (if nv.2.any (fun v => match v with | some x => (50 : Rat) < x | none => false) then
        ["Column '" ++ nv.1 ++ "' has very high LR values (>50)"] else []) ++
      (if nv.2.any (fun v => match v with | some x => x < mkRat 1 10 | none => false) then
        ["Column '" ++ nv.1 ++ "' has very low LR values (<0.1)"] else [])
    let errors := headerErrors ++ positivityErrors
    some { valid := errors.isEmpty, errors := errors, warnings := nullWarnings ++ rangeWarnings }

/-! ## Priors extractor (simulator_export.py lines 210-231) and the export
endpoint (main.py lines 761-793) -/

/-- `create_prior_probabilities_file`: first tier with the requested level,
else the first tier, else an empty mapping; the stored probabilities are
returned unchanged (no sum check happens here). -/
def create_prior_probabilities_file (fw : List Tier) (tl : Int) : List (String × Rat) :=
  match fw.find? (fun t => t.tier_level = tl) with
  | some t => t.a_priori_probabilities
  | none =>
    match fw with
    | t :: _ => t.a_priori_probabilities
    | [] => []

/-- The two rejection payloads of the priors export endpoint: the 404 when
the extractor returns an empty (falsy) mapping, and the 400 whose detail
interpolates the actual computed sum. -/
inductive PriorsExportError where
  | notFound (tier_level : Int)
  | badSum (total : Rat)
deriving DecidableEq, Repr

/-- The pure tail of the `export_prior_probabilities` endpoint (main.py
lines 778-792), after the database reads: extract, reject an empty mapping
with 404, reject a sum further than 0.01 from 1.0 with a 400 carrying the
sum, otherwise serve the mapping. -/
def export_prior_probabilities (fw : List Tier) (tl : Int) :
    Except PriorsExportError (List (String × Rat)) :=
  let priors := create_prior_probabilities_file fw tl
  if priors.isEmpty then .error (.notFound tl)
  else
    let total := (priors.map Prod.snd).sum
    if mkRat 1 100 < |total - 1| then .error (.badSum total)
    else .ok priors

/-! ## Auxiliary definitions used by the claim statements -/

/-- Output discipline of `collapseWS`: every whitespace character of the
output is a plain space, and no space is followed by another whitespace
character (whitespace runs have been collapsed). -/
def wsCanonical : List Char → Bool
  | [] => true
  | [c] => !(isPySpace c) || (c = ' ')
  | c1 :: c2 :: rest =>
    (!(isPySpace c1) || ((c1 = ' ') && !(isPySpace c2))) && wsCanonical (c2 :: rest)

/-- Every numeric value stored in a `feature_lr_map` has two decimal
places. -/
def mapTwoDp (m : FeatureLRMap) : Prop :=
  ∀ p ∈ m, ∀ q ∈ p.2, ((q.2 * 100).den = 1)

/-! ## Concrete sample inputs for witnesses and counterexamples -/

/-- A small `case_details` value. -/
def sampleCase : CaseDetails :=
  { presentation := "Acute chest pain", patient_personality := "calm",
    history_questions := [], physical_exam_findings := [], diagnostic_workup := [] }

/-- A tier with two buckets and priors summing to 1. -/
def sampleTier : Tier :=
  { tier_level := 1,
    buckets := [some "Cardiac Causes", some "Pulmonary Causes"],
    a_priori_probabilities := [("Cardiac Causes", mkRat 1 2), ("Pulmonary Causes", mkRat 1 2)] }

/-- An LR record that exactly matches a bucket after normalization. -/
def recExact : LRRecord :=
  { feature_name := "Chest pain", feature_category := "history",
    diagnostic_bucket := "Tier 1: CARDIAC  Causes", tier_level := some 1,
    likelihood_ratio := mkRat 5 2 }

/-- An LR record whose bucket matches nothing. -/
def recMiss : LRRecord :=
  { feature_name := "Fever", feature_category := "history",
    diagnostic_bucket := "Renal", tier_level := some 1,
    likelihood_ratio := mkRat 2 1 }

/-- The clamp invariant of C2, as an executable check over a table. -/
def tableCellsGeFloor (t : Table) : Bool :=
  t.rows.all fun r => r.2.all fun v => mkRat 1 100 ≤ v

/-- The feature classifier as claim C4 words it: the filler prefixes are
stripped only as LEADING occurrences of the cleaned (lowercased) name.
This definition follows the claim's words and exists only to be compared
with `standardizeFeature`, which is translated from the source. -/
def specStripLeading (pats : List String) (s : String) : String :=
  match pats.find? (fun p => p.data.isPrefixOf s.data) with
  | some p => ⟨s.data.drop p.data.length⟩
  | none => s

/-- The claim-worded classifier (leading occurrences only). -/
def standardizeFeatureSpecLeading (category name : String) : String :=
  if category = "history" then
    "Patient Has: " ++ pyStrip (specStripLeading ["history:", "question:"] (pyLower name))
  else if category = "physical_exam" then
    "Physical Finding: " ++
      pyStrip (specStripLeading ["physical exam:", "examination:", "physical:"] (pyLower name))
  else if category = "diagnostic_workup" then
    "Test Result: " ++
      pyStrip (specStripLeading ["diagnostic test:", "test:", "diagnostic:"] (pyLower name))
  else
    "Clinical Feature: " ++ pyStrip name

/-- The concrete validation result of the table used by the C5 witness. -/
def c5SampleResult : ValidationResult :=
  { valid := false,
    errors := ["Column 'B' contains non-positive values"],
    warnings := ["Column 'B' has very low LR values (<0.1)"] }

/-- Executable check that all numeric cells of a table are exact multiples
of 0.01 (the two-decimal rounding contract). -/
def tableCellsTwoDp (t : Table) : Bool :=
  t.rows.all fun r => r.2.all fun v => (v * 100).den = 1

/-! ## Generic lemmas about the dictionary, sorting and string models -/

theorem mem_dictInsert {α : Type} {m : List (String × α)} {k : String} {v : α}
    {p : String × α} (h : p ∈ dictInsert m k v) : p.2 = v ∨ p ∈ m := by
  induction m with
  | nil =>
    simp only [dictInsert, List.mem_singleton] at h
    exact Or.inl (by simp [h])
  | cons hd tl ih =>
    obtain ⟨k', v'⟩ := hd
    simp only [dictInsert] at h
    by_cases hk : k' = k
    · simp only [if_pos hk, List.mem_cons] at h
      rcases h with h | h
      · exact Or.inl (by simp [h])
      · exact Or.inr (List.mem_cons_of_mem _ h)
    · simp only [if_neg hk, List.mem_cons] at h
      rcases h with h | h
      · exact Or.inr (by simp [h])
      · rcases ih h with h' | h'
        · exact Or.inl h'
        · exact Or.inr (List.mem_cons_of_mem _ h')

theorem initRow_values {buckets : List String} {p : String × Rat}
    (h : p ∈ initRow buckets) : p.2 = 1 := by
  suffices H : ∀ (bs : List String) (inner : List (String × Rat)),
      (∀ q ∈ inner, q.2 = (1 : Rat)) →
      ∀ q ∈ bs.foldl (fun i b => dictInsert i b 1) inner, q.2 = (1 : Rat) by
    exact H buckets [] (by simp) p h
  intro bs
  induction bs with
  | nil => intro inner hinner q hq; exact hinner q hq
  | cons b rest ih =>
    intro inner hinner q hq
    refine ih (dictInsert inner b 1) ?_ q hq
    intro q' hq'
    rcases mem_dictInsert hq' with h' | h'
    · exact h'
    · exact hinner q' h'

theorem mem_setCell {m : FeatureLRMap} {f d : String} {v : Rat}
    {p : String × List (String × Rat)} (h : p ∈ setCell m f d v) :
    p ∈ m ∨ ∃ q ∈ m, p.1 = q.1 ∧ p.2 = dictInsert q.2 d v := by
  induction m with
  | nil => simp [setCell] at h
  | cons hd tl ih =>
    obtain ⟨f', inner⟩ := hd
    simp only [setCell] at h
    by_cases hf : f' = f
    · simp only [if_pos hf, List.mem_cons] at h
      rcases h with h | h
      · exact Or.inr ⟨(f', inner), by simp, by simp [h]⟩
      · exact Or.inl (List.mem_cons_of_mem _ h)
    · simp only [if_neg hf, List.mem_cons] at h
      rcases h with h | h
      · exact Or.inl (by simp [h])
      · rcases ih h with h' | ⟨q, hq, h1, h2⟩
        · exact Or.inl (List.mem_cons_of_mem _ h')
        · exact Or.inr ⟨q, List.mem_cons_of_mem _ hq, h1, h2⟩

theorem mem_insertSorted {α : Type} (le : α → α → Bool) (x y : α) (l : List α) :
    y ∈ insertSorted le x l ↔ y = x ∨ y ∈ l := by
  induction l with
  | nil => simp [insertSorted]
  | cons z zs ih =>
    by_cases h : le x z
    · simp only [insertSorted, if_pos h, List.mem_cons]
      try tauto
    · simp only [insertSorted, if_neg h, List.mem_cons, ih]
      try tauto

theorem mem_sortByLe {α : Type} (le : α → α → Bool) (l : List α) (y : α) :
    y ∈ sortByLe le l ↔ y ∈ l := by
  induction l with
  | nil => simp [sortByLe]
  | cons z zs ih =>
    show y ∈ insertSorted le z (sortByLe le zs) ↔ _
    rw [mem_insertSorted, ih]
    simp [List.mem_cons]

theorem pairwise_insertSorted {α : Type} (le : α → α → Bool)
    (htot : ∀ a b, le a b = false → le b a = true)
    (htrans : ∀ a b c, le a b = true → le b c = true → le a c = true)
    (x : α) (l : List α) (h : l.Pairwise (le · · = true)) :
    (insertSorted le x l).Pairwise (le · · = true) := by
  induction l with
  | nil => simp [insertSorted]
  | cons y ys ih =>
    rcases List.pairwise_cons.mp h with ⟨hy, hys⟩
    by_cases hxy : le x y
    · simp only [insertSorted, if_pos hxy]
      refine List.pairwise_cons.mpr ⟨?_, h⟩
      intro z hz
      rcases List.mem_cons.mp hz with hz' | hz'
      · exact hz' ▸ hxy
      · exact htrans x y z hxy (hy z hz')
    · simp only [insertSorted, if_neg hxy]
      refine List.pairwise_cons.mpr ⟨?_, ih hys⟩
      intro z hz
      rcases (mem_insertSorted le x z ys).mp hz with hz' | hz'
      · have hyx : le y x = true := htot x y (by simpa using hxy)
        rw [hz']
        exact hyx
      · exact hy z hz'

theorem pairwise_sortByLe {α : Type} (le : α → α → Bool)
    (htot : ∀ a b, le a b = false → le b a = true)
    (htrans : ∀ a b c, le a b = true → le b c = true → le a c = true)
    (l : List α) : (sortByLe le l).Pairwise (le · · = true) := by
  induction l with
  | nil => simp [sortByLe]
  | cons z zs ih => exact pairwise_insertSorted le htot htrans z (sortByLe le zs) ih

theorem rowLeb_total (a b : String × List Rat) (h : rowLeb a b = false) : rowLeb b a = true := by
  simp only [rowLeb, strLeb, decide_eq_false_iff_not, decide_eq_true_eq] at h ⊢
  exact le_of_not_le h

theorem rowLeb_trans (a b c : String × List Rat)
    (h1 : rowLeb a b = true) (h2 : rowLeb b c = true) : rowLeb a c = true := by
  simp only [rowLeb, strLeb, decide_eq_true_eq] at h1 h2 ⊢
  exact le_trans h1 h2

theorem removeAllFuel_of_not_occurs {pat l : List Char}
    (h : occursIn pat l = false) : ∀ fuel, removeAllFuel pat fuel l = l := by
  induction l with
  | nil => intro fuel; cases fuel <;> rfl
  | cons c rest ih =>
    intro fuel
    cases fuel with
    | zero => rfl
    | succ f =>
      simp only [occursIn, Bool.or_eq_false_iff] at h
      have hcond : ¬(pat ≠ [] ∧ pat.isPrefixOf (c :: rest) = true) := by
        simp [h.1]
      simp only [removeAllFuel, if_neg hcond]
      rw [ih h.2 f]

theorem removeAll_of_not_occurs {pat l : List Char}
    (h : occursIn pat l = false) : removeAll pat l = l :=
  removeAllFuel_of_not_occurs h _

/-! ## Lemmas about the normalizer -/

theorem toNat_ofNat_valid {n : Nat} (h : Nat.isValidChar n) : (Char.ofNat n).toNat = n := by
  rw [Char.ofNat, dif_pos h]
  rfl

theorem isUpperAscii_pyLowerChar (c : Char) : isUpperAscii (pyLowerChar c) = false := by
  unfold pyLowerChar
  by_cases h : 65 ≤ c.toNat ∧ c.toNat ≤ 90
  · rw [if_pos h]
    have hv : Nat.isValidChar (c.toNat + 32) := Or.inl (by omega)
    simp only [isUpperAscii, toNat_ofNat_valid hv]
    have : ¬(65 ≤ c.toNat + 32 ∧ c.toNat + 32 ≤ 90) := by omega
    exact decide_eq_false this
  · rw [if_neg h]
    exact decide_eq_false h

theorem mem_pyLowerList {l : List Char} {c : Char} (h : c ∈ pyLowerList l) :
    ∃ c', c = pyLowerChar c' := by
  rcases List.mem_map.mp h with ⟨c', _, rfl⟩
  exact ⟨c', rfl⟩

theorem mem_dropTierTag {l : List Char} {c : Char} (h : c ∈ dropTierTag l) : c ∈ l := by
  unfold dropTierTag at h
  split at h
  case _ rest =>
    split at h
    · exact h
    · split at h
      case _ r3 heq =>
        have h1 : c ∈ r3.dropWhile isPySpace := h
        have h2 : c ∈ (':' :: r3) :=
          List.mem_cons_of_mem _ ((List.dropWhile_sublist _).mem h1)
        rw [← heq] at h2
        have h3 : c ∈ (rest.dropWhile isPySpace).dropWhile isPyDigit :=
          (List.dropWhile_sublist _).mem h2
        have h4 : c ∈ rest :=
          (List.dropWhile_sublist (l := rest) isPySpace).mem
            ((List.dropWhile_sublist _).mem h3)
        simp [h4]
      case _ => exact h
  case _ => exact h

theorem mem_collapseWS {l : List Char} {c : Char} (h : c ∈ collapseWS l) :
    c = ' ' ∨ c ∈ l := by
  induction l with
  | nil => simp [collapseWS] at h
  | cons c1 tl ih =>
    cases tl with
    | nil =>
      by_cases hsp : isPySpace c1
      · simp only [collapseWS, if_pos hsp, List.mem_singleton] at h
        exact Or.inl h
      · simp only [collapseWS, if_neg hsp, List.mem_singleton] at h
        exact Or.inr (by simp [h])
    | cons c2 rest =>
      by_cases h1 : isPySpace c1
      · by_cases h2 : isPySpace c2
        · simp only [collapseWS, if_pos h1, if_pos h2] at h
          rcases ih h with h' | h'
          · exact Or.inl h'
          · exact Or.inr (List.mem_cons_of_mem _ h')
        · simp only [collapseWS, if_pos h1, if_neg h2, List.mem_cons] at h
          rcases h with h | h
          · exact Or.inl h
          · rcases ih h with h' | h'
            · exact Or.inl h'
            · exact Or.inr (List.mem_cons_of_mem _ h')
      · simp only [collapseWS, if_neg h1, List.mem_cons] at h
        rcases h with h | h
        · exact Or.inr (by simp [h])
        · rcases ih h with h' | h'
          · exact Or.inl h'
          · exact Or.inr (List.mem_cons_of_mem _ h')

theorem head_collapseWS_of_not_space {c : Char} {l : List Char} (h : isPySpace c = false) :
    (collapseWS (c :: l)).head? = some c := by
  cases l with
  | nil => simp [collapseWS, h]
  | cons c2 rest => simp [collapseWS, h]

theorem wsCanonical_collapseWS (l : List Char) : wsCanonical (collapseWS l) = true := by
  induction l with
  | nil => simp [collapseWS, wsCanonical]
  | cons c1 tl ih =>
    cases tl with
    | nil =>
      by_cases hsp : isPySpace c1
      · simp [collapseWS, if_pos hsp, wsCanonical]
      · simp [collapseWS, if_neg hsp, wsCanonical, hsp]
    | cons c2 rest =>
      by_cases h1 : isPySpace c1
      · by_cases h2 : isPySpace c2
        · simpa [collapseWS, if_pos h1, if_pos h2] using ih
        · simp only [collapseWS, if_pos h1, if_neg h2]
          have hh := head_collapseWS_of_not_space (l := rest) (c := c2) (by simpa using h2)
          cases hR : collapseWS (c2 :: rest) with
          | nil => simp [wsCanonical]
          | cons d ds =>
            rw [hR] at hh
            simp only [List.head?_cons, Option.some_inj] at hh
            subst hh
            have hrec := ih
            rw [hR] at hrec
            simp +decide [wsCanonical, hrec, h2]
      · simp only [collapseWS, if_neg h1]
        cases hR : collapseWS (c2 :: rest) with
        | nil => simp [wsCanonical, h1]
        | cons d ds =>
          have hrec := ih
          rw [hR] at hrec
          simp only [wsCanonical, h1]
          simp [hrec]

/-! ## Two-decimal-place invariant machinery -/

theorem mkRat_hundred_mul_den (k : Int) : (mkRat k 100 * 100 : Rat).den = 1 := by
  rw [Rat.mkRat_eq_div]
  push_cast
  rw [div_mul_cancel₀ _ (by norm_num : (100 : Rat) ≠ 0)]
  exact Rat.den_intCast k

theorem round2_twoDp (q : Rat) : (round2 q * 100).den = 1 :=
  mkRat_hundred_mul_den _

theorem one_twoDp : ((1 : Rat) * 100).den = 1 := by norm_num

theorem floorConst_twoDp : ((mkRat 1 100) * 100).den = 1 :=
  mkRat_hundred_mul_den 1

theorem max_twoDp {a b : Rat} (ha : (a * 100).den = 1) (hb : (b * 100).den = 1) :
    (max a b * 100).den = 1 := by
  rcases max_choice a b with h | h <;> rw [h]
  · exact ha
  · exact hb

theorem dictFind_mem {α : Type} {m : List (String × α)} {k : String} {v : α}
    (h : dictFind m k = some v) : ∃ p ∈ m, p.2 = v := by
  induction m with
  | nil => simp [dictFind] at h
  | cons hd tl ih =>
    obtain ⟨k', v'⟩ := hd
    by_cases hk : k' = k
    · simp only [dictFind, if_pos hk, Option.some_inj] at h
      exact ⟨(k', v'), by simp, h⟩
    · simp only [dictFind, if_neg hk] at h
      rcases ih h with ⟨p, hp, hpv⟩
      exact ⟨p, List.mem_cons_of_mem _ hp, hpv⟩

theorem initRow_twoDp (buckets : List String) :
    ∀ q ∈ initRow buckets, ((q.2 * 100 : Rat).den = 1) := by
  intro q hq
  rw [initRow_values hq]
  exact one_twoDp

theorem processRecord_twoDp (strict : Bool) (buckets : List String)
    (bm um : List (String × String)) (r : LRRecord) {m : FeatureLRMap}
    (hm : mapTwoDp m) : mapTwoDp (processRecord strict buckets bm um m r) := by
  have hm1 : mapTwoDp
      (if (dictFind m (standardizeFeature r.feature_category r.feature_name)).isSome then m
       else m ++ [(standardizeFeature r.feature_category r.feature_name, initRow buckets)]) := by
    split
    · exact hm
    · intro p hp
      rcases List.mem_append.mp hp with hp' | hp'
      · exact hm p hp'
      · intro q hq
        rw [List.mem_singleton] at hp'
        rw [hp'] at hq
        exact initRow_twoDp buckets q hq
  unfold processRecord
  cases hres : resolveBucket strict bm um r.diagnostic_bucket with
  | none => exact hm1
  | some d =>
    by_cases hd : d = ""
    · simpa [hd] using hm1
    · simp only [if_neg hd]
      intro p hp
      rcases mem_setCell hp with hp' | ⟨q, hq, h1, h2⟩
      · exact hm1 p hp'
      · intro x hx
        rw [h2] at hx
        rcases mem_dictInsert hx with hx' | hx'
        · rw [hx']
          exact round2_twoDp _
        · exact hm1 q hq x hx'

theorem foldl_processRecord_twoDp (strict : Bool) (buckets : List String)
    (bm um : List (String × String)) (lrs : List LRRecord) :
    mapTwoDp (lrs.foldl (processRecord strict buckets bm um) []) := by
  suffices H : ∀ (l : List LRRecord) (m : FeatureLRMap), mapTwoDp m →
      mapTwoDp (l.foldl (processRecord strict buckets bm um) m) by
    exact H lrs [] (by intro p hp; simp at hp)
  intro l
  induction l with
  | nil => intro m hm; exact hm
  | cons r rest ih =>
    intro m hm
    exact ih _ (processRecord_twoDp strict buckets bm um r hm)

/-! ## Claims -/

/-- **C1.** Inside the matrix builder, the matching engine first looks the
normalized bucket label up as an exact key of the selected tier's
normalized-name map: on a hit the tier's display name is returned whatever
the strict flag is; with `strict = true` the result is exactly that exact
lookup, so a miss resolves to `none`, and processing such a record leaves
the feature map unchanged except for possibly initializing the record's own
feature row, every cell of which carries the neutral default 1.0. -/
theorem c1_exact_match_and_strict_miss (strict : Bool) (bm um : List (String × String))
    (buckets : List String) (m : FeatureLRMap) (r : LRRecord) :
    (∀ d, dictFind bm (pyNorm r.diagnostic_bucket) = some d →
      resolveBucket strict bm um r.diagnostic_bucket = some d) ∧
    (resolveBucket true bm um r.diagnostic_bucket = dictFind bm (pyNorm r.diagnostic_bucket)) ∧
    (resolveBucket true bm um r.diagnostic_bucket = none →
      processRecord true buckets bm um m r =
        if (dictFind m (standardizeFeature r.feature_category r.feature_name)).isSome then m
        else m ++ [(standardizeFeature r.feature_category r.feature_name, initRow buckets)]) ∧
    (∀ p ∈ initRow buckets, p.2 = (1 : Rat)) := by
  refine ⟨?_, ?_, ?_, fun p hp => initRow_values hp⟩
  · intro d hd
    simp only [resolveBucket, hd]
  · simp only [resolveBucket]
    cases hd : dictFind bm (pyNorm r.diagnostic_bucket) <;> simp
  · intro hnone
    simp only [processRecord, hnone]

/-- Witness for C1 on concrete inputs: an exact normalized hit is returned
in both modes, and a strict-mode miss resolves to `none` and only creates
an all-1.0 row. -/
theorem c1_witness :
    resolveBucket true [("cardiac causes", "Cardiac Causes")] [("x", "X")]
      recExact.diagnostic_bucket = some "Cardiac Causes" ∧
    resolveBucket false [("cardiac causes", "Cardiac Causes")] [("x", "X")]
      recExact.diagnostic_bucket = some "Cardiac Causes" ∧
    resolveBucket true [("cardiac causes", "Cardiac Causes")] [("x", "X")]
      recMiss.diagnostic_bucket = none ∧
    processRecord true ["Cardiac Causes"] [("cardiac causes", "Cardiac Causes")] [("x", "X")]
      [] recMiss = [("Patient Has: fever", [("Cardiac Causes", (1 : Rat))])] := by
  refine ⟨?_, ?_, ?_, ?_⟩
  · exact (c1_exact_match_and_strict_miss true [("cardiac causes", "Cardiac Causes")]
      [("x", "X")] [] [] recExact).1 "Cardiac Causes" (by decide)
  · exact (c1_exact_match_and_strict_miss false [("cardiac causes", "Cardiac Causes")]
      [("x", "X")] [] [] recExact).1 "Cardiac Causes" (by decide)
  · exact ((c1_exact_match_and_strict_miss true [("cardiac causes", "Cardiac Causes")]
      [("x", "X")] [] [] recMiss).2.1).trans (by decide)
  · have hnone : resolveBucket true [("cardiac causes", "Cardiac Causes")] [("x", "X")]
        recMiss.diagnostic_bucket = none :=
      ((c1_exact_match_and_strict_miss true [("cardiac causes", "Cardiac Causes")]
        [("x", "X")] [] [] recMiss).2.1).trans (by decide)
    rw [(c1_exact_match_and_strict_miss true [("cardiac causes", "Cardiac Causes")]
      [("x", "X")] ["Cardiac Causes"] [] recMiss).2.2.1 hnone]
    decide

/-- **C2.** Every numeric cell of every built matrix is at least 0.01,
whatever the sign of the input likelihood ratios: non-positive values are
clamped to the floor, not rejected. -/
theorem c2_cells_ge_floor (cd : CaseDetails) (fw : List Tier) (lrs : List LRRecord)
    (tl : Option Int) (strict : Bool) :
    tableCellsGeFloor (create_feature_lr_matrix cd fw lrs tl strict) = true := by
  simp only [tableCellsGeFloor, create_feature_lr_matrix]
  rw [List.all_eq_true]
  intro row hrow
  rw [mem_sortByLe] at hrow
  rcases List.mem_map.mp hrow with ⟨fv, _, rfl⟩
  rw [List.all_eq_true]
  intro v hv
  rcases List.mem_map.mp hv with ⟨v0, _, rfl⟩
  exact decide_eq_true (le_max_right _ _)

/-- **C3 counterexample.** A heterogeneous record list (one record carries
`tier_level`, the other does not) does NOT keep all records: the record
without the field is dropped by the tier filter, and its feature row is
absent from the built table. -/
theorem c3_counterexample :
    filterLRRecords (some 1) [recExact, { recMiss with tier_level := none }] = [recExact] ∧
    filterLRRecords (some 1) [recExact, { recMiss with tier_level := none }] ≠
      [recExact, { recMiss with tier_level := none }] ∧
    (create_feature_lr_matrix sampleCase [sampleTier]
        [recExact, { recMiss with tier_level := none }] (some 1) true).rows.map Prod.fst =
      ["Patient Has: chest pain"] := by
  refine ⟨by decide, by decide, by decide⟩

/-- **C3 (amended).** With no tier requested, or when no record carries a
`tier_level` field, all records are kept; but as soon as one record carries
the field, the whole list is filtered by equality with the requested tier,
so records lacking the field are dropped along with records of other
tiers. -/
theorem c3_tier_filter_amended (lvl : Int) (lrs : List LRRecord) :
    (filterLRRecords none lrs = lrs) ∧
    (lrs.any (fun r => r.tier_level.isSome) = false →
      filterLRRecords (some lvl) lrs = lrs) ∧
    (lrs.any (fun r => r.tier_level.isSome) = true →
      filterLRRecords (some lvl) lrs = lrs.filter (fun r => r.tier_level = some lvl)) ∧
    (lrs.any (fun r => r.tier_level.isSome) = true →
      ∀ r ∈ filterLRRecords (some lvl) lrs, r.tier_level = some lvl) := by
  refine ⟨rfl, ?_, ?_, ?_⟩
  · intro h
    simp [filterLRRecords, h]
  · intro h
    simp [filterLRRecords, h]
  · intro h r hr
    simp only [filterLRRecords, h, if_pos] at hr
    simpa using List.of_mem_filter hr

/-- Witness for C3 (amended) on concrete heterogeneous input. -/
theorem c3_witness :
    filterLRRecords (some 1) [recExact, { recMiss with tier_level := none }] =
      [recExact, { recMiss with tier_level := none }].filter
        (fun r => r.tier_level = some 1) := by
  exact (c3_tier_filter_amended 1 [recExact, { recMiss with tier_level := none }]).2.2.1
    (by decide)

/-- **C7.** Whenever the (possibly tier-filtered) LR-record list is empty,
the builder still returns the full header `"Feature"` followed by the
resolved bucket display names in resolver order, with zero data rows. -/
theorem c7_empty_iter_full_header (cd : CaseDetails) (fw : List Tier) (lrs : List LRRecord)
    (tl : Option Int) (strict : Bool) (h : filterLRRecords tl lrs = []) :
    create_feature_lr_matrix cd fw lrs tl strict =
      { header := "Feature" :: resolveBuckets fw tl, rows := [] } := by
  simp only [create_feature_lr_matrix, h]
  rfl

/-- Witness for C7: the empty LR list with two known buckets yields the
three-column header and no rows. -/
theorem c7_witness :
    filterLRRecords (some 1) ([] : List LRRecord) = [] ∧
    create_feature_lr_matrix sampleCase [sampleTier] [] (some 1) true =
      { header := ["Feature", "Cardiac Causes", "Pulmonary Causes"], rows := [] } := by
  refine ⟨rfl, ?_⟩
  rw [c7_empty_iter_full_header sampleCase [sampleTier] [] (some 1) true rfl]
  decide

/-- **C10.** The output of `create_feature_lr_matrix` does not depend on the
`case_details` argument: the row set is derived from the LR records only. -/
theorem c10_case_details_ignored (c1 c2 : CaseDetails) (fw : List Tier)
    (lrs : List LRRecord) (tl : Option Int) (strict : Bool) :
    create_feature_lr_matrix c1 fw lrs tl strict =
      create_feature_lr_matrix c2 fw lrs tl strict := rfl

/-- **C4 counterexample.** The source removes every occurrence of the
filler substrings anywhere in the name, not only leading ones: for the
history feature name `"fever question: present"` the code removes the
mid-string `"question:"` (leaving a double space behind), while the claim's
leading-only stripping would leave the name unchanged. -/
theorem c4_counterexample :
    standardizeFeature "history" "fever question: present" = "Patient Has: fever  present" ∧
    standardizeFeatureSpecLeading "history" "fever question: present" =
      "Patient Has: fever question: present" ∧
    standardizeFeature "history" "fever question: present" ≠
      standardizeFeatureSpecLeading "history" "fever question: present" := by
  refine ⟨by decide, by decide, by decide⟩

/-- **C4 (amended).** The classifier lowercases the name and removes every
(left-to-right, non-overlapping) occurrence of the category's filler
substrings anywhere in it, then trims, with the category-specific preludes
of the claim; any other category only trims the name (no lowering, no
substring removal).  In particular, when no filler substring occurs in the
lowercased name at all, the label is exactly the prelude plus the
trimmed lowercased name. -/
theorem c4_classifier_amended (name : String) :
    (standardizeFeature "history" name =
      "Patient Has: " ++
        pyStrip (pyRemoveAll (pyRemoveAll (pyLower name) "history:") "question:")) ∧
    (standardizeFeature "physical_exam" name =
      "Physical Finding: " ++
        pyStrip (pyRemoveAll (pyRemoveAll (pyRemoveAll (pyLower name) "physical exam:")
          "examination:") "physical:")) ∧
    (standardizeFeature "diagnostic_workup" name =
      "Test Result: " ++
        pyStrip (pyRemoveAll (pyRemoveAll (pyRemoveAll (pyLower name) "diagnostic test:")
          "test:") "diagnostic:")) ∧
    (∀ category, category ≠ "history" → category ≠ "physical_exam" →
      category ≠ "diagnostic_workup" →
      standardizeFeature category name = "Clinical Feature: " ++ pyStrip name) ∧
    (occursIn "history:".data (pyLower name).data = false →
      occursIn "question:".data (pyLower name).data = false →
      standardizeFeature "history" name = "Patient Has: " ++ pyStrip (pyLower name)) := by
  refine ⟨rfl, rfl, rfl, ?_, ?_⟩
  · intro category h1 h2 h3
    simp only [standardizeFeature, if_neg h1, if_neg h2, if_neg h3]
  · intro h1 h2
    have e1 : pyRemoveAll (pyLower name) "history:" = pyLower name := by
      show (⟨removeAll "history:".data (pyLower name).data⟩ : String) = pyLower name
      rw [removeAll_of_not_occurs h1]
    have e2 : pyRemoveAll (pyLower name) "question:" = pyLower name := by
      show (⟨removeAll "question:".data (pyLower name).data⟩ : String) = pyLower name
      rw [removeAll_of_not_occurs h2]
    show "Patient Has: " ++
        pyStrip (pyRemoveAll (pyRemoveAll (pyLower name) "history:") "question:") = _
    rw [e1, e2]

/-- Witness for C4 (amended) at concrete inputs. -/
theorem c4_witness :
    standardizeFeature "other" "BP 120/80" = "Clinical Feature: BP 120/80" ∧
    standardizeFeature "history" " Chest pain " = "Patient Has: chest pain" := by
  constructor
  · exact (c4_classifier_amended "BP 120/80").2.2.2.1 "other"
      (by decide) (by decide) (by decide)
  · rw [(c4_classifier_amended " Chest pain ").2.2.2.2 (by decide) (by decide)]
    decide

/-- **C6 counterexample.** For the empty framework the extractor returns
the empty mapping, whose probabilities sum to 0 (further than 0.01 from
1.0); the endpoint nevertheless rejects it with the not-found error, which
does not carry the computed sum, not with the sum-carrying error the claim
requires. -/
theorem c6_counterexample :
    create_prior_probabilities_file [] 1 = [] ∧
    mkRat 1 100 < |(((create_prior_probabilities_file [] 1).map Prod.snd).sum) - 1| ∧
    export_prior_probabilities [] 1 = .error (.notFound 1) ∧
    (PriorsExportError.notFound 1) ≠
      .badSum (((create_prior_probabilities_file [] 1).map Prod.snd).sum) := by
  refine ⟨rfl, by decide, rfl, by decide⟩

/-- **C6 (amended).** The extractor selects the first tier whose level
equals the requested one, falls back to the framework's first tier when no
tier matches, returns the empty mapping for the empty framework, and never
checks the probability sum (it returns the stored mapping unchanged); the
calling endpoint rejects a NONEMPTY returned mapping whose sum is further
than 0.01 from 1.0 with an error carrying the actual computed sum, while an
empty returned mapping is rejected earlier with a not-found error that does
not mention the sum. -/
theorem c6_priors_amended (fw : List Tier) (lvl : Int) :
    (∀ t, fw.find? (fun t => t.tier_level = lvl) = some t →
      create_prior_probabilities_file fw lvl = t.a_priori_probabilities) ∧
    (fw.find? (fun t => t.tier_level = lvl) = none →
      ∀ t rest, fw = t :: rest →
        create_prior_probabilities_file fw lvl = t.a_priori_probabilities) ∧
    (fw = [] → create_prior_probabilities_file fw lvl = []) ∧
    ((create_prior_probabilities_file fw lvl).isEmpty = false →
      mkRat 1 100 < |((create_prior_probabilities_file fw lvl).map Prod.snd).sum - 1| →
      export_prior_probabilities fw lvl =
        .error (.badSum (((create_prior_probabilities_file fw lvl).map Prod.snd).sum))) ∧
    ((create_prior_probabilities_file fw lvl).isEmpty = true →
      export_prior_probabilities fw lvl = .error (.notFound lvl)) := by
  refine ⟨?_, ?_, ?_, ?_, ?_⟩
  · intro t ht
    simp only [create_prior_probabilities_file, ht]
  · intro hfind t rest hfw
    subst hfw
    simp only [create_prior_probabilities_file, hfind]
  · intro hfw
    subst hfw
    rfl
  · intro hne hsum
    simp [export_prior_probabilities, hne, hsum]
  · intro he
    simp [export_prior_probabilities, he]

/-- Witness for C6 (amended): exact tier selection, and a 0.9-sum tier
rejected with the sum-carrying error. -/
theorem c6_witness :
    create_prior_probabilities_file [sampleTier] 1 = sampleTier.a_priori_probabilities ∧
    export_prior_probabilities
      [{ tier_level := 1, buckets := [some "A", some "B"],
         a_priori_probabilities := [("A", mkRat 2 5), ("B", mkRat 1 2)] }] 1 =
      .error (.badSum (mkRat 9 10)) := by
  constructor
  · exact (c6_priors_amended [sampleTier] 1).1 sampleTier (by decide)
  · have h := (c6_priors_amended
      [{ tier_level := 1, buckets := [some "A", some "B"],
         a_priori_probabilities := [("A", mkRat 2 5), ("B", mkRat 1 2)] }] 1).2.2.2.1
      (by decide) (by decide)
    rw [h]
    exact congrArg Except.error (congrArg PriorsExportError.badSum (by decide))

/-! ## Helpers for the validator claim -/

theorem filterMapIf_eq_nil_iff {α β : Type} (l : List α) (cond : α → Bool) (g : α → β) :
    l.filterMap (fun a => if cond a then some (g a) else none) = [] ↔
      ∀ a ∈ l, cond a = false := by
  rw [List.filterMap_eq_nil_iff]
  constructor
  · intro h a ha
    have := h a ha
    by_cases hc : cond a
    · simp [hc] at this
    · simpa using hc
  · intro h a ha
    simp [h a ha]

theorem filterMapIf_ne_nil_iff {α β : Type} (l : List α) (cond : α → Bool) (g : α → β) :
    l.filterMap (fun a => if cond a then some (g a) else none) ≠ [] ↔
      ∃ a ∈ l, cond a = true := by
  rw [ne_eq, filterMapIf_eq_nil_iff]
  constructor
  · intro h
    by_contra h2
    push_neg at h2
    refine h fun a ha => ?_
    have := h2 a ha
    simpa using this
  · rintro ⟨a, ha, hc⟩ hall
    rw [hall a ha] at hc
    cases hc

theorem mem_filterMapIf {α β : Type} {l : List α} {a : α} (ha : a ∈ l) {cond : α → Bool}
    (hc : cond a = true) (g : α → β) :
    g a ∈ l.filterMap (fun a => if cond a then some (g a) else none) :=
  List.mem_filterMap.mpr ⟨a, ha, by simp [hc]⟩

theorem isEmpty_append_false_iff {α : Type} (l1 l2 : List α) :
    (l1 ++ l2).isEmpty = false ↔ (l1 ≠ [] ∨ l2 ≠ []) := by
  cases l1 <;> cases l2 <;> simp

/-- **C5 counterexample.** The validator can throw, so it does not "always
return a structured result": on a columnless DataFrame `df.columns[0]`
raises `IndexError`, and on a DataFrame with a duplicated numeric column
label the positivity loop raises `ValueError` (both modelled by `none`). -/
theorem c5_counterexample :
    validate_lr_matrix_for_simulator { cols := [] } = none ∧
    validate_lr_matrix_for_simulator
      { cols := [.strCol "Feature" [some "a"],
                 .numCol "B" [some (mkRat 2 1)], .numCol "B" [some (mkRat 3 1)]] } = none := by
  refine ⟨rfl, by decide⟩

/-- **C5 (amended).** For every DataFrame with at least one column and no
numeric column label duplicated among the columns, the validator returns a
structured result, whose `valid` is false exactly when the first column's
header differs from the literal `"Feature"` or some numeric column contains
a (present) value ≤ 0, and every offending numeric column contributes its
`"Column '<name>' contains non-positive values"` error string; a columnless
DataFrame raises `IndexError` and a duplicated numeric column label raises
`ValueError` instead. -/
theorem c5_validator_amended (c0 : PyColumn) (cs : List PyColumn)
    (hnodup : hasDupNumericLabel (PyDataFrame.mk (c0 :: cs)) = false) :
    ∀ res, validate_lr_matrix_for_simulator { cols := c0 :: cs } = some res →
      ((res.valid = false ↔ (c0.colName ≠ "Feature" ∨
          ∃ nv ∈ (PyDataFrame.mk (c0 :: cs)).numericCols, colHasNonPositive nv = true)) ∧
        (∀ nv ∈ (PyDataFrame.mk (c0 :: cs)).numericCols, colHasNonPositive nv = true →
          ("Column '" ++ nv.1 ++ "' contains non-positive values") ∈ res.errors)) := by
  intro res hres
  have hcond : ¬ (hasDupNumericLabel (PyDataFrame.mk (c0 :: cs)) = true) := by
    simp [hnodup]
  simp only [validate_lr_matrix_for_simulator, if_neg hcond, Option.some_inj] at hres
  subst hres
  constructor
  · dsimp only
    have e1 : ((if c0.colName ≠ "Feature" then ["First column must be named 'Feature'"]
        else []) ≠ []) ↔ c0.colName ≠ "Feature" := by
      by_cases h : c0.colName = "Feature" <;> simp [h]
    rw [isEmpty_append_false_iff, e1,
      filterMapIf_ne_nil_iff (PyDataFrame.mk (c0 :: cs)).numericCols colHasNonPositive
        (fun nv => "Column '" ++ nv.1 ++ "' contains non-positive values")]
  · intro nv hnv hc
    dsimp only
    refine List.mem_append.mpr (Or.inr ?_)
    exact mem_filterMapIf hnv hc
      (fun nv => "Column '" ++ nv.1 ++ "' contains non-positive values")

/-- Witness for C5 (amended): a table with a `-1` cell is invalid with the
documented error string. -/
theorem c5_witness :
    validate_lr_matrix_for_simulator
        { cols := [.strCol "Feature" [some "a"], .numCol "B" [some (mkRat (-1) 1)]] } =
      some c5SampleResult ∧
    c5SampleResult.valid = false ∧
    "Column 'B' contains non-positive values" ∈ c5SampleResult.errors := by
  have h := c5_validator_amended (.strCol "Feature" [some "a"])
    [.numCol "B" [some (mkRat (-1) 1)]] (by decide) c5SampleResult (by decide)
  exact ⟨by decide,
    h.1.mpr (Or.inr ⟨("B", [some (mkRat (-1) 1)]), by decide, by decide⟩),
    h.2 ("B", [some (mkRat (-1) 1)]) (by decide) (by decide)⟩

/-! ## Trimmedness of the normalizer -/

theorem head?_dropWhile_not {p : Char → Bool} : ∀ {l : List Char} {c : Char},
    (l.dropWhile p).head? = some c → p c = false := by
  intro l
  induction l with
  | nil => intro c h; simp [List.dropWhile] at h
  | cons a as ih =>
    intro c h
    by_cases hp : p a
    · rw [List.dropWhile_cons_of_pos hp] at h
      exact ih h
    · rw [List.dropWhile_cons_of_neg hp] at h
      simp only [List.head?_cons, Option.some_inj] at h
      rw [← h]
      simpa using hp

theorem pyStripList_head {l : List Char} {c : Char}
    (h : (pyStripList l).head? = some c) : isPySpace c = false := by
  unfold pyStripList at h
  rcases List.dropWhile_suffix (l := (l.dropWhile isPySpace).reverse) isPySpace with ⟨t, ht⟩
  have hXeq : l.dropWhile isPySpace =
      ((l.dropWhile isPySpace).reverse.dropWhile isPySpace).reverse ++ t.reverse := by
    conv_lhs => rw [← List.reverse_reverse (l.dropWhile isPySpace), ← ht]
    simp [List.reverse_append]
  have hxh : (l.dropWhile isPySpace).head? = some c := by
    rw [hXeq]
    cases hY : ((l.dropWhile isPySpace).reverse.dropWhile isPySpace).reverse with
    | nil => rw [hY] at h; simp at h
    | cons y ys =>
      rw [hY] at h
      simp only [List.head?_cons, Option.some_inj] at h
      rw [← h]
      simp
  exact head?_dropWhile_not hxh

theorem pyStripList_getLast {l : List Char} {c : Char}
    (h : (pyStripList l).getLast? = some c) : isPySpace c = false := by
  unfold pyStripList at h
  rw [List.getLast?_reverse] at h
  exact head?_dropWhile_not h

theorem isPySpace_eq_false_of_ge (c : Char) (h1 : 65 ≤ c.toNat) : isPySpace c = false := by
  apply decide_eq_false
  rintro (rfl | rfl | rfl | rfl | rfl | rfl) <;> exact absurd h1 (by decide)

theorem isPySpace_pyLowerChar (c : Char) : isPySpace (pyLowerChar c) = isPySpace c := by
  unfold pyLowerChar
  by_cases h : 65 ≤ c.toNat ∧ c.toNat ≤ 90
  · rw [if_pos h]
    have hv : Nat.isValidChar (c.toNat + 32) := Or.inl (by omega)
    rw [isPySpace_eq_false_of_ge _ (by rw [toNat_ofNat_valid hv]; omega),
      isPySpace_eq_false_of_ge _ h.1]
  · rw [if_neg h]

theorem suffix_dropTierTag (l : List Char) : dropTierTag l <:+ l := by
  unfold dropTierTag
  split
  case _ rest =>
    split
    · exact List.suffix_refl _
    · split
      case _ r3 heq =>
        have h1 : r3.dropWhile isPySpace <:+ (':' :: r3) :=
          (List.dropWhile_suffix _).trans (List.suffix_cons _ _)
        have h3 : (':' :: r3) <:+ rest := by
          rw [← heq]
          exact (List.dropWhile_suffix _).trans
            ((List.dropWhile_suffix _).trans (List.dropWhile_suffix _))
        have h4 : rest <:+ ('t' :: 'i' :: 'e' :: 'r' :: rest) :=
          ((List.suffix_cons 'r' rest).trans ((List.suffix_cons 'e' _).trans
            ((List.suffix_cons 'i' _).trans (List.suffix_cons 't' _))))
        exact (h1.trans h3).trans h4
      case _ => exact List.suffix_refl _
  case _ => exact List.suffix_refl _

theorem getLast?_of_suffix {α : Type} {l₁ l₂ : List α} (h : l₁ <:+ l₂) {c : α}
    (hl : l₁.getLast? = some c) : l₂.getLast? = some c := by
  rcases h with ⟨t, rfl⟩
  rw [List.getLast?_append, hl]
  rfl

theorem head_dropTierTag {l : List Char}
    (hl : ∀ c, l.head? = some c → isPySpace c = false) :
    ∀ c, (dropTierTag l).head? = some c → isPySpace c = false := by
  intro c hc
  unfold dropTierTag at hc
  split at hc
  case _ rest =>
    split at hc
    · exact hl c hc
    · split at hc
      case _ r3 heq => exact head?_dropWhile_not hc
      case _ => exact hl c hc
  case _ => exact hl c hc

theorem head_collapseWS {l : List Char}
    (hl : ∀ c, l.head? = some c → isPySpace c = false) :
    ∀ c, (collapseWS l).head? = some c → isPySpace c = false := by
  intro c hc
  cases l with
  | nil => simp [collapseWS] at hc
  | cons c0 tl =>
    have h0 : isPySpace c0 = false := hl c0 (by simp)
    rw [head_collapseWS_of_not_space h0] at hc
    simp only [Option.some_inj] at hc
    rw [← hc]
    exact h0

theorem collapseWS_ne_nil (c0 : Char) (tl : List Char) : collapseWS (c0 :: tl) ≠ [] := by
  induction tl generalizing c0 with
  | nil => by_cases h : isPySpace c0 <;> simp [collapseWS, h]
  | cons c1 rest ih =>
    by_cases h0 : isPySpace c0
    · by_cases h1 : isPySpace c1
      · simpa [collapseWS, h0, h1] using ih c1
      · simp [collapseWS, h0, h1]
    · simp [collapseWS, h0]

theorem getLast_collapseWS {l : List Char}
    (hl : ∀ c, l.getLast? = some c → isPySpace c = false) :
    ∀ c, (collapseWS l).getLast? = some c → isPySpace c = false := by
  induction l with
  | nil => intro c hc; simp [collapseWS] at hc
  | cons c0 tl ih =>
    cases tl with
    | nil =>
      intro c hc
      have h0 : isPySpace c0 = false := hl c0 (by simp)
      rw [show collapseWS [c0] = [c0] from by simp [collapseWS, h0]] at hc
      simp only [List.getLast?_singleton, Option.some_inj] at hc
      rw [← hc]
      exact h0
    | cons c1 rest =>
      intro c hc
      have hl' : ∀ c, (c1 :: rest).getLast? = some c → isPySpace c = false := by
        intro c' hc'
        exact hl c' (by rw [List.getLast?_cons_cons]; exact hc')
      by_cases h0 : isPySpace c0
      · by_cases h1 : isPySpace c1
        · rw [show collapseWS (c0 :: c1 :: rest) = collapseWS (c1 :: rest) from by
            simp [collapseWS, h0, h1]] at hc
          exact ih hl' c hc
        · rw [show collapseWS (c0 :: c1 :: rest) = ' ' :: collapseWS (c1 :: rest) from by
            simp [collapseWS, h0, h1]] at hc
          cases hX : collapseWS (c1 :: rest) with
          | nil => exact absurd hX (collapseWS_ne_nil c1 rest)
          | cons d ds =>
            rw [hX, List.getLast?_cons_cons] at hc
            rw [← hX] at hc
            exact ih hl' c hc
      · rw [show collapseWS (c0 :: c1 :: rest) = c0 :: collapseWS (c1 :: rest) from by
          simp [collapseWS, h0]] at hc
        cases hX : collapseWS (c1 :: rest) with
        | nil => exact absurd hX (collapseWS_ne_nil c1 rest)
        | cons d ds =>
          rw [hX, List.getLast?_cons_cons] at hc
          rw [← hX] at hc
          exact ih hl' c hc

theorem pyNorm_head {s : String} {c : Char}
    (h : (pyNorm s).data.head? = some c) : isPySpace c = false := by
  have hL2 : ∀ c, (pyLowerList (pyStripList s.data)).head? = some c → isPySpace c = false := by
    intro c' hc'
    rw [show pyLowerList (pyStripList s.data) = (pyStripList s.data).map pyLowerChar from rfl,
      List.head?_map] at hc'
    cases hh : (pyStripList s.data).head? with
    | none => rw [hh] at hc'; simp at hc'
    | some c0 =>
      rw [hh] at hc'
      have hcc : pyLowerChar c0 = c' := by simpa using hc'
      rw [← hcc, isPySpace_pyLowerChar]
      exact pyStripList_head hh
  exact head_collapseWS (head_dropTierTag hL2) c h

theorem pyNorm_getLast {s : String} {c : Char}
    (h : (pyNorm s).data.getLast? = some c) : isPySpace c = false := by
  have hL2 : ∀ c, (pyLowerList (pyStripList s.data)).getLast? = some c →
      isPySpace c = false := by
    intro c' hc'
    rw [show pyLowerList (pyStripList s.data) = (pyStripList s.data).map pyLowerChar from rfl,
      List.getLast?_map] at hc'
    cases hh : (pyStripList s.data).getLast? with
    | none => rw [hh] at hc'; simp at hc'
    | some c0 =>
      rw [hh] at hc'
      have hcc : pyLowerChar c0 = c' := by simpa using hc'
      rw [← hcc, isPySpace_pyLowerChar]
      exact pyStripList_getLast hh
  have hL3 : ∀ c, (dropTierTag (pyLowerList (pyStripList s.data))).getLast? = some c →
      isPySpace c = false := by
    intro c' hc'
    exact hL2 c' (getLast?_of_suffix (suffix_dropTierTag _) hc')
  exact getLast_collapseWS hL3 c h

/-- **C8.** The name normalizer is a pure total function: a missing label
normalizes to the empty string, the empty string is a fixed point, the
spec's example normalizes as stated, exactly one leading (case-insensitive)
`tier <digits>:` tag is stripped, and for every input the output contains no
ASCII uppercase letter, has all whitespace collapsed to single interior
spaces, and is trimmed (no leading or trailing whitespace). -/
theorem c8_normalizer_properties :
    (pyNormOpt none = "") ∧
    (pyNorm "" = "") ∧
    (pyNorm "  Tier 2:  Cardiac   Causes " = "cardiac causes") ∧
    (pyNorm "TIER 10:Tier 3:  Renal" = "tier 3: renal") ∧
    (∀ s : String, (pyNorm s).data.all (fun c => !(isUpperAscii c)) = true) ∧
    (∀ s : String, wsCanonical (pyNorm s).data = true) ∧
    (∀ s : String, ((pyNorm s).data.head?.all fun c => !(isPySpace c)) = true) ∧
    (∀ s : String, ((pyNorm s).data.getLast?.all fun c => !(isPySpace c)) = true) := by
  refine ⟨by decide, by decide, by decide, by decide, ?_, ?_, ?_, ?_⟩
  · intro s
    rw [List.all_eq_true]
    intro c hc
    have hc' : c ∈ collapseWS (dropTierTag (pyLowerList (pyStripList s.data))) := hc
    rcases mem_collapseWS hc' with hsp | hmem
    · rw [hsp]
      decide
    · rcases mem_pyLowerList (mem_dropTierTag hmem) with ⟨c', rfl⟩
      simp [isUpperAscii_pyLowerChar]
  · intro s
    exact wsCanonical_collapseWS _
  · intro s
    cases hh : (pyNorm s).data.head? with
    | none => rfl
    | some c => simp [Option.all_some, pyNorm_head hh]
  · intro s
    cases hh : (pyNorm s).data.getLast? with
    | none => rfl
    | some c => simp [Option.all_some, pyNorm_getLast hh]

/-- **C9.** The builder composed with the CSV serializer is deterministic
(two runs on identical inputs are byte-identical), the rows of the built
table are sorted ascending by the feature label (Python string order), and
every numeric cell is an exact multiple of 0.01 (rounding to two decimal
places). -/
theorem c9_deterministic_sorted_rounded (cd : CaseDetails) (fw : List Tier)
    (lrs : List LRRecord) (tl : Option Int) (strict : Bool) :
    (export_to_csv (create_feature_lr_matrix cd fw lrs tl strict) =
      export_to_csv (create_feature_lr_matrix cd fw lrs tl strict)) ∧
    (create_feature_lr_matrix cd fw lrs tl strict).rows.Pairwise
      (fun a b => rowLeb a b = true) ∧
    tableCellsTwoDp (create_feature_lr_matrix cd fw lrs tl strict) = true := by
  refine ⟨rfl, ?_, ?_⟩
  · exact pairwise_sortByLe rowLeb rowLeb_total rowLeb_trans _
  · simp only [tableCellsTwoDp, create_feature_lr_matrix]
    rw [List.all_eq_true]
    intro row hrow
    rw [mem_sortByLe] at hrow
    rcases List.mem_map.mp hrow with ⟨fv, hfv, rfl⟩
    rw [List.all_eq_true]
    intro v hv
    rcases List.mem_map.mp hv with ⟨v0, hv0, rfl⟩
    rcases List.mem_map.mp hfv with ⟨p, hp, rfl⟩
    rcases List.mem_map.mp hv0 with ⟨b, _, rfl⟩
    apply decide_eq_true
    apply max_twoDp _ floorConst_twoDp
    cases hdf : dictFind p.2 b with
    | none => simp [hdf, one_twoDp]
    | some v1 =>
      rcases dictFind_mem hdf with ⟨q, hq, rfl⟩
      have hall := foldl_processRecord_twoDp strict (resolveBuckets fw tl)
        (bucketNormMap (resolveBuckets fw tl)) (unionNormMap fw)
        (filterLRRecords tl lrs) p hp q hq
      simpa [hdf] using hall
